import Mathlib

/-!
# Verification of the SH tick reconstruction engine

Shallow embedding of the per-security reconstruction engine of
`sh_tick_reconstruction` (files `models.py`, `time_filter.py`,
`reconstructor.py`, `batch.py`) and proofs of the specification claims.

Modelling conventions:
* Python `dict` (insertion ordered) becomes an association list
  `List (Int × OrderContext)`; a fresh key is appended at the end,
  an existing key is updated in place.
* Python floats (prices, trade money) become `ℚ`; integer columns become `ℤ`.
* `row.get('TradeMoney')` may be absent, so that column is `Option ℚ`.
* Python exceptions (`ValueError` from the cache accumulators) become
  `Except String`; an uncaught exception aborts the whole per-security run,
  exactly as in the source where nothing catches it.
-/

/-- Propositional equality on `Except` results is decidable (needed to settle
concrete scenario runs by evaluation). -/
instance {ε α : Type} [DecidableEq ε] [DecidableEq α] : DecidableEq (Except ε α) :=
  fun x y =>
    match x, y with
    | .error e₁, .error e₂ =>
        if h : e₁ = e₂ then .isTrue (by rw [h]) else .isFalse (by intro hh; cases hh; exact h rfl)
    | .ok a₁, .ok a₂ =>
        if h : a₁ = a₂ then .isTrue (by rw [h]) else .isFalse (by intro hh; cases hh; exact h rfl)
    | .error _, .ok _ => .isFalse (by intro hh; cases hh)
    | .ok _, .error _ => .isFalse (by intro hh; cases hh)

namespace SHTick

/-- One row of the merged tick feed (`auction_tick_merged_data`). -/
structure Row where
  securityId : String
  bizIndex : Int
  tickTime : Int
  type : String
  buyOrderNO : Int
  sellOrderNO : Int
  price : ℚ
  qty : Int
  tradeMoney : Option ℚ
  tickBSFlag : String
  deriving DecidableEq, Repr

/-- `models.OrderContext`: accumulated per-order state. -/
structure OrderContext where
  order_no : Int
  side : String
  first_time : Int
  first_biz_index : Int
  trade_qty : Int := 0
  resting_qty : Int := 0
  trade_price : ℚ := 0
  resting_price : ℚ := 0
  is_aggressive : Bool := false
  has_resting : Bool := false
  deriving DecidableEq, Repr

namespace OrderContext

/-- `OrderContext.add_trade_qty`: raises `ValueError` on negative qty. -/
def add_trade_qty (ctx : OrderContext) (qty : Int) : Except String OrderContext :=
  if qty < 0 then .error "trade qty negative"
  else .ok { ctx with trade_qty := ctx.trade_qty + qty }

/-- `OrderContext.add_resting_qty`: raises `ValueError` on negative qty. -/
def add_resting_qty (ctx : OrderContext) (qty : Int) : Except String OrderContext :=
  if qty < 0 then .error "resting qty negative"
  else .ok { ctx with resting_qty := ctx.resting_qty + qty }

/-- `OrderContext.get_price`: resting price if positive, else trade price. -/
def get_price (ctx : OrderContext) : ℚ :=
  if ctx.resting_price > 0 then ctx.resting_price else ctx.trade_price

/-- `OrderContext.get_total_qty`. -/
def get_total_qty (ctx : OrderContext) : Int :=
  ctx.trade_qty + ctx.resting_qty

end OrderContext

/-- One output row of the order table (`OrdType` is `"New"` or `"Cancel"`). -/
structure OrderRecord where
  securityId : String
  bizIndex : Int
  tickTime : Int
  ordId : Int
  ordType : String
  side : String
  price : ℚ
  qty : Int
  isAggressive : Option Bool
  deriving DecidableEq, Repr

/-- One output row of the trade table. -/
structure TradeRecord where
  securityId : String
  bizIndex : Int
  tickTime : Int
  bidOrdId : Int
  askOrdId : Int
  price : ℚ
  qty : Int
  tradeMoney : ℚ
  activeSide : Int
  deriving DecidableEq, Repr

/-- The order cache: insertion-ordered map from order number to context. -/
abbrev OrderMap := List (Int × OrderContext)

/-- Dictionary lookup on the order cache. -/
def lookupOrd : OrderMap → Int → Option OrderContext
  | [], _ => none
  | (k, v) :: rest, id => if k = id then some v else lookupOrd rest id

/-- In-place update of an existing key (Python `order_map[order_no] = ctx`
on a present key keeps its position). -/
def updateOrd : OrderMap → Int → OrderContext → OrderMap
  | [], _, _ => []
  | (k, v) :: rest, id, c =>
      if k = id then (k, c) :: rest else (k, v) :: updateOrd rest id c

-- ---------------------------------------------------------------------------
-- time_filter.py
-- ---------------------------------------------------------------------------

def MORNING_START : Int := 93000000
def MORNING_END : Int := 113000000
def AFTERNOON_START : Int := 130000000
def AFTERNOON_END : Int := 150000000

/-- `time_filter.is_continuous_trading_time`. -/
def is_continuous_trading_time (tick_time : Int) : Bool :=
  if MORNING_START ≤ tick_time ∧ tick_time < MORNING_END then true
  else if AFTERNOON_START ≤ tick_time ∧ tick_time < AFTERNOON_END then true
  else false

-- ---------------------------------------------------------------------------
-- reconstructor.py : event handlers
-- ---------------------------------------------------------------------------

/-- `reconstructor.process_trade` (Type='T').  Returns the updated cache and
trade list; an uncaught `ValueError` from `add_trade_qty` aborts the run. -/
def process_trade (row : Row) (order_map : OrderMap) (trade_list : List TradeRecord)
    (security_id : String) : Except String (OrderMap × List TradeRecord) :=
  -- Step 2: ActiveSide mapping (B = 1, S = 2, other = 0 / auction)
  let active : Int × Option Int × Option String :=
    if row.tickBSFlag = "B" then (1, some row.buyOrderNO, some "B")
    else if row.tickBSFlag = "S" then (2, some row.sellOrderNO, some "S")
    else (0, none, none)
  -- Step 3: emit the trade record unconditionally
  let trade_money : ℚ :=
    match row.tradeMoney with
    | none => row.price * row.qty
    | some tm => if tm = 0 then row.price * row.qty else tm
  let rec0 : TradeRecord :=
    { securityId := security_id
      bizIndex := row.bizIndex
      tickTime := row.tickTime
      bidOrdId := row.buyOrderNO
      askOrdId := row.sellOrderNO
      price := row.price
      qty := row.qty
      tradeMoney := trade_money
      activeSide := active.1 }
  let trade_list' := trade_list ++ [rec0]
  -- Step 4/5: only the aggressor side is reconstructed
  match active.2.1 with
  | none => .ok (order_map, trade_list')
  | some active_order_no =>
    match lookupOrd order_map active_order_no with
    | some ctx =>
      match ctx.add_trade_qty row.qty with
      | .error e => .error e
      | .ok ctx1 =>
          .ok (updateOrd order_map active_order_no
                 { ctx1 with trade_price := row.price }, trade_list')
    | none =>
      let ctx : OrderContext :=
        { order_no := active_order_no
          side := active.2.2.getD ""
          first_time := row.tickTime
          first_biz_index := row.bizIndex
          trade_qty := row.qty
          trade_price := row.price
          is_aggressive := true }
      .ok (order_map ++ [(active_order_no, ctx)], trade_list')

/-- `reconstructor.process_add_order` (Type='A'). -/
def process_add_order (row : Row) (order_map : OrderMap) :
    Except String OrderMap :=
  -- Step 1: order number and side
  let order_no := if row.tickBSFlag = "B" then row.buyOrderNO else row.sellOrderNO
  let side := if row.tickBSFlag = "B" then "B" else "S"
  -- Step 2: already traded or pure resting order
  match lookupOrd order_map order_no with
  | some ctx =>
    match ctx.add_resting_qty row.qty with
    | .error e => .error e
    | .ok ctx1 =>
        .ok (updateOrd order_map order_no
               { ctx1 with resting_price := row.price, has_resting := true })
  | none =>
    let ctx0 : OrderContext :=
      { order_no := order_no
        side := side
        first_time := row.tickTime
        first_biz_index := row.bizIndex
        is_aggressive := false }
    match ctx0.add_resting_qty row.qty with
    | .error e => .error e
    | .ok ctx1 =>
        .ok (order_map ++
              [(order_no, { ctx1 with resting_price := row.price, has_resting := true })])

/-- `reconstructor.process_delete_order` (Type='D').  Pure: reads the cache,
appends exactly one Cancel record. -/
def process_delete_order (row : Row) (order_map : OrderMap)
    (order_list : List OrderRecord) (last_price : ℚ) (security_id : String) :
    List OrderRecord :=
  -- Step 1: order number and side
  let order_no := if row.tickBSFlag = "B" then row.buyOrderNO else row.sellOrderNO
  let side := if row.tickBSFlag = "B" then "B" else "S"
  -- Step 2: three-level price fallback
  let cancel_price : ℚ :=
    if row.price > 0 then row.price
    else
      match lookupOrd order_map order_no with
      | some ctx => ctx.get_price
      | none => last_price
  -- Step 3: emit the cancel record
  order_list ++
    [{ securityId := security_id
       bizIndex := row.bizIndex
       tickTime := row.tickTime
       ordId := order_no
       ordType := "Cancel"
       side := side
       price := cancel_price
       qty := row.qty
       isAggressive := none }]

/-- `reconstructor.settle_orders`: flush the cache into New records,
in cache-insertion order, dropping entries with non-positive total qty. -/
def settle_orders (security_id : String) : OrderMap → List OrderRecord
  | [] => []
  | (order_no, ctx) :: rest =>
    let total_qty := ctx.trade_qty + ctx.resting_qty
    if total_qty ≤ 0 then settle_orders security_id rest
    else
      { securityId := security_id
        bizIndex := ctx.first_biz_index
        tickTime := ctx.first_time
        ordId := order_no
        ordType := "New"
        side := ctx.side
        price := if ctx.resting_price > 0 then ctx.resting_price else ctx.trade_price
        qty := total_qty
        isAggressive := some ctx.is_aggressive } :: settle_orders security_id rest

-- ---------------------------------------------------------------------------
-- reconstructor.py : main loop
-- ---------------------------------------------------------------------------

/-- Engine state threaded through the per-row loop of
`reconstruct_sh_tick_data`. -/
structure EngState where
  order_map : OrderMap := []
  order_list : List OrderRecord := []
  trade_list : List TradeRecord := []
  last_price : ℚ := 0
  deriving DecidableEq, Repr

def initState : EngState := {}

/-- One iteration of the per-row loop (Step 3 of
`reconstruct_sh_tick_data`), dispatching on `Type`. -/
def stepEvent (security_id : String) (st : EngState) (row : Row) :
    Except String EngState :=
  if row.type = "T" then
    match process_trade row st.order_map st.trade_list security_id with
    | .error e => .error e
    | .ok (m, tl) =>
        .ok { st with
                order_map := m
                trade_list := tl
                last_price := if row.price > 0 then row.price else st.last_price }
  else if row.type = "A" then
    match process_add_order row st.order_map with
    | .error e => .error e
    | .ok m => .ok { st with order_map := m }
  else if row.type = "D" then
    .ok { st with
            order_list :=
              process_delete_order row st.order_map st.order_list st.last_price
                security_id }
  else .ok st

/-- Run the loop over the preprocessed rows. -/
def runEvents (security_id : String) (st : EngState) : List Row → Except String EngState
  | [] => .ok st
  | row :: rest =>
    match stepEvent security_id st row with
    | .error e => .error e
    | .ok st' => runEvents security_id st' rest

/-- Sort key order used by the preprocessing sort and the output sorts:
ascending `(TickTime, BizIndex)`. -/
def timeIdxLE (t₁ b₁ t₂ b₂ : Int) : Prop :=
  t₁ < t₂ ∨ (t₁ = t₂ ∧ b₁ ≤ b₂)

instance : DecidableRel (fun (p q : Int × Int) => timeIdxLE p.1 p.2 q.1 q.2) := by
  intro p q
  unfold timeIdxLE
  infer_instance

def rowLE (a b : Row) : Prop := timeIdxLE a.tickTime a.bizIndex b.tickTime b.bizIndex

instance : DecidableRel rowLE := by
  intro a b
  unfold rowLE timeIdxLE
  infer_instance

def orderRecLE (a b : OrderRecord) : Prop :=
  timeIdxLE a.tickTime a.bizIndex b.tickTime b.bizIndex

instance : DecidableRel orderRecLE := by
  intro a b
  unfold orderRecLE timeIdxLE
  infer_instance

def tradeRecLE (a b : TradeRecord) : Prop :=
  timeIdxLE a.tickTime a.bizIndex b.tickTime b.bizIndex

instance : DecidableRel tradeRecLE := by
  intro a b
  unfold tradeRecLE timeIdxLE
  infer_instance

/-- Step 1 of `reconstruct_sh_tick_data`: drop Type='S', keep only the
continuous-auction session, sort by `(TickTime, BizIndex)`. -/
def preprocess (rows : List Row) : List Row :=
  List.insertionSort rowLE
    (rows.filter (fun r => r.type ≠ "S" && is_continuous_trading_time r.tickTime))

/-- `reconstructor.reconstruct_sh_tick_data`: full per-security pipeline. -/
def reconstruct_sh_tick_data (rows : List Row) (security_id : String) :
    Except String (List OrderRecord × List TradeRecord) :=
  match runEvents security_id initState (preprocess rows) with
  | .error e => .error e
  | .ok st =>
      .ok (List.insertionSort orderRecLE
             (st.order_list ++ settle_orders security_id st.order_map),
           List.insertionSort tradeRecLE st.trade_list)

-- ---------------------------------------------------------------------------
-- batch.py : callback trace of process_daily_data
-- ---------------------------------------------------------------------------

/-- String order used by the per-day security iteration
(`df['SecurityID'].unique().sort()`). -/
def strLE (a b : String) : Prop := a < b ∨ a = b

instance : DecidableRel strLE := by
  intro a b
  unfold strLE
  infer_instance

/-- The distinct security ids of a day's feed, ascending
(`security_ids = df['SecurityID'].unique().sort().to_list()`). -/
def securityIds (rows : List Row) : List String :=
  List.insertionSort strLE ((rows.map (·.securityId)).dedup)

/-- The sequence of `progress_callback(security_id, i + 1, total_securities)`
invocations made by the loop of `batch.process_daily_data`. -/
def callbackTrace (rows : List Row) : List (String × Nat × Nat) :=
  let ids := securityIds rows
  ids.enum.map (fun p => (p.2, p.1 + 1, ids.length))

-- ---------------------------------------------------------------------------
-- Analysis vocabulary for the claims
-- ---------------------------------------------------------------------------

/-- The order identifier an event resolves to, if any: the aggressor side of a
Trade (`TickBSFlag` 'B'/'S', none for auction trades), the posted side of an
Add.  Delete and Status events never introduce an order into the cache. -/
def introId (r : Row) : Option Int :=
  if r.type = "T" then
    if r.tickBSFlag = "B" then some r.buyOrderNO
    else if r.tickBSFlag = "S" then some r.sellOrderNO
    else none
  else if r.type = "A" then
    some (if r.tickBSFlag = "B" then r.buyOrderNO else r.sellOrderNO)
  else none

/-- First event of the sequence that resolves to the given order id. -/
def firstIntro : List Row → Int → Option Row
  | [], _ => none
  | r :: rest, id => if introId r = some id then some r else firstIntro rest id

/-- Total quantity carried by the events of the sequence that resolve to the
given order id. -/
def qtySum : List Row → Int → Int
  | [], _ => 0
  | r :: rest, id => (if introId r = some id then r.qty else 0) + qtySum rest id

/-- The id's birth mode fixes the aggressiveness flag: Trade-born orders are
takers, Add-born orders are makers. -/
def birthMode (r : Row) (b : Bool) : Prop :=
  (r.type = "T" ∧ b = true) ∨ (r.type = "A" ∧ b = false)

/-- Keys of the order cache. -/
def keys (m : OrderMap) : List Int := m.map Prod.fst

-- ---------------------------------------------------------------------------
-- Association-list lemmas
-- ---------------------------------------------------------------------------

theorem lookupOrd_eq_none_iff (m : OrderMap) (id : Int) :
    lookupOrd m id = none ↔ id ∉ keys m := by
  induction m with
  | nil => simp [lookupOrd, keys]
  | cons p rest ih =>
    obtain ⟨k, v⟩ := p
    simp only [lookupOrd, keys, List.map_cons, List.mem_cons]
    by_cases h : k = id
    · subst h; simp
    · have h' : ¬ id = k := fun hh => h hh.symm
      rw [if_neg h, ih]
      simp [keys, h']

theorem lookupOrd_updateOrd_self (m : OrderMap) (k : Int) (c ctx : OrderContext)
    (h : lookupOrd m k = some ctx) :
    lookupOrd (updateOrd m k c) k = some c := by
  induction m with
  | nil => simp [lookupOrd] at h
  | cons p rest ih =>
    obtain ⟨k', v⟩ := p
    by_cases hk : k' = k <;> simp [lookupOrd, updateOrd, hk] at *
    exact ih h

theorem lookupOrd_updateOrd_ne (m : OrderMap) (k id : Int) (c : OrderContext)
    (h : id ≠ k) :
    lookupOrd (updateOrd m k c) id = lookupOrd m id := by
  induction m with
  | nil => simp [updateOrd]
  | cons p rest ih =>
    obtain ⟨k', v⟩ := p
    simp only [updateOrd]
    by_cases hk : k' = k
    · subst hk
      have h' : ¬ k' = id := fun hh => h hh.symm
      simp [lookupOrd, h']
    · simp only [if_neg hk, lookupOrd]
      by_cases hid : k' = id
      · simp [hid]
      · simp [hid, ih]

theorem keys_updateOrd (m : OrderMap) (k : Int) (c : OrderContext) :
    keys (updateOrd m k c) = keys m := by
  induction m with
  | nil => rfl
  | cons p rest ih =>
    obtain ⟨k', v⟩ := p
    by_cases hk : k' = k <;> simp [updateOrd, keys, hk] at *
    exact ih

theorem lookupOrd_append_some (m l : OrderMap) (id : Int) (v : OrderContext)
    (h : lookupOrd m id = some v) :
    lookupOrd (m ++ l) id = some v := by
  induction m with
  | nil => simp [lookupOrd] at h
  | cons p rest ih =>
    obtain ⟨k, w⟩ := p
    by_cases hk : k = id <;> simp [lookupOrd, hk] at *
    · exact h
    · exact ih h

theorem lookupOrd_append_none (m l : OrderMap) (id : Int)
    (h : lookupOrd m id = none) :
    lookupOrd (m ++ l) id = lookupOrd l id := by
  induction m with
  | nil => simp
  | cons p rest ih =>
    obtain ⟨k, w⟩ := p
    by_cases hk : k = id <;> simp [lookupOrd, hk] at *
    exact ih h

theorem lookupOrd_of_mem (m : OrderMap) (k : Int) (ctx : OrderContext)
    (hnd : (keys m).Nodup) (hmem : (k, ctx) ∈ m) :
    lookupOrd m k = some ctx := by
  induction m with
  | nil => simp at hmem
  | cons p rest ih =>
    obtain ⟨k', v⟩ := p
    simp only [keys, List.map_cons, List.nodup_cons] at hnd
    rcases List.mem_cons.mp hmem with h | h
    · obtain ⟨h1, h2⟩ := Prod.mk.injEq .. ▸ h
      cases h
      simp [lookupOrd]
    · have hk : k' ≠ k := by
        intro heq
        exact hnd.1 (heq ▸ (List.mem_map.mpr ⟨(k, ctx), h, rfl⟩))
      simp only [lookupOrd, if_neg hk]
      exact ih hnd.2 h

theorem mem_of_lookupOrd (m : OrderMap) (k : Int) (ctx : OrderContext)
    (h : lookupOrd m k = some ctx) : (k, ctx) ∈ m := by
  induction m with
  | nil => simp [lookupOrd] at h
  | cons p rest ih =>
    obtain ⟨k', v⟩ := p
    by_cases hk : k' = k <;> simp [lookupOrd, hk] at h
    · simp [hk, h]
    · exact List.mem_cons_of_mem _ (ih h)

-- ---------------------------------------------------------------------------
-- firstIntro / qtySum lemmas
-- ---------------------------------------------------------------------------

theorem firstIntro_append (l₁ l₂ : List Row) (id : Int) :
    firstIntro (l₁ ++ l₂) id =
      (firstIntro l₁ id).elim (firstIntro l₂ id) some := by
  induction l₁ with
  | nil => simp [firstIntro]
  | cons r rest ih =>
    by_cases h : introId r = some id <;> simp [firstIntro, h, ih]

theorem qtySum_append (l₁ l₂ : List Row) (id : Int) :
    qtySum (l₁ ++ l₂) id = qtySum l₁ id + qtySum l₂ id := by
  induction l₁ with
  | nil => simp [qtySum]
  | cons r rest ih =>
    simp [qtySum, ih]
    ring

theorem qtySum_eq_zero_of_firstIntro_eq_none (l : List Row) (id : Int)
    (h : firstIntro l id = none) : qtySum l id = 0 := by
  induction l with
  | nil => rfl
  | cons r rest ih =>
    by_cases hr : introId r = some id <;> simp [firstIntro, hr] at h <;>
      simp [qtySum, hr, ih h]

-- ---------------------------------------------------------------------------
-- The cache invariant
-- ---------------------------------------------------------------------------

/-- Invariant tying the order cache to the processed event prefix: an id is
cached iff some processed event resolved to it, its aggressiveness flag is
fixed by the first such event's type, and its accumulated quantity is the sum
of the quantities of all such events. -/
def CacheInv (evs : List Row) (m : OrderMap) : Prop :=
  (keys m).Nodup ∧
  (∀ id, lookupOrd m id = none → firstIntro evs id = none) ∧
  (∀ id ctx, lookupOrd m id = some ctx →
     (∃ r, firstIntro evs id = some r ∧ birthMode r ctx.is_aggressive) ∧
     ctx.trade_qty + ctx.resting_qty = qtySum evs id)

theorem cacheInv_nil : CacheInv [] [] := by
  refine ⟨by simp [keys], fun id _ => rfl, fun id ctx h => ?_⟩
  simp [lookupOrd] at h

theorem cacheInv_noop {evs : List Row} {m : OrderMap} {r : Row}
    (hinv : CacheInv evs m) (hnone : introId r = none) :
    CacheInv (evs ++ [r]) m := by
  obtain ⟨hnd, hno, hsome⟩ := hinv
  refine ⟨hnd, fun id h => ?_, fun id ctx h => ?_⟩
  · rw [firstIntro_append, hno id h]
    simp [firstIntro, hnone]
  · obtain ⟨⟨r₀, hr₀, hb⟩, hq⟩ := hsome id ctx h
    refine ⟨⟨r₀, ?_, hb⟩, ?_⟩
    · rw [firstIntro_append, hr₀]
      rfl
    · rw [qtySum_append, hq]
      simp [qtySum, hnone]

theorem cacheInv_update {evs : List Row} {m : OrderMap} {r : Row} {id₀ : Int}
    {ctx ctx' : OrderContext}
    (hinv : CacheInv evs m) (hl : lookupOrd m id₀ = some ctx)
    (hid : introId r = some id₀)
    (hagg : ctx'.is_aggressive = ctx.is_aggressive)
    (hq' : ctx'.trade_qty + ctx'.resting_qty =
             ctx.trade_qty + ctx.resting_qty + r.qty) :
    CacheInv (evs ++ [r]) (updateOrd m id₀ ctx') := by
  obtain ⟨hnd, hno, hsome⟩ := hinv
  refine ⟨by rw [keys_updateOrd]; exact hnd, fun id h => ?_, fun id ctx'' h => ?_⟩
  · by_cases he : id = id₀
    · subst he
      rw [lookupOrd_updateOrd_self m id ctx' ctx hl] at h
      exact absurd h (by simp)
    · rw [lookupOrd_updateOrd_ne m id₀ id ctx' he] at h
      rw [firstIntro_append, hno id h]
      simp only [Option.elim]
      have : introId r ≠ some id := by rw [hid]; simpa using fun hh => he hh.symm
      simp [firstIntro, this]
  · by_cases he : id = id₀
    · subst he
      rw [lookupOrd_updateOrd_self m id ctx' ctx hl] at h
      injection h with h
      subst h
      obtain ⟨⟨r₀, hr₀, hb⟩, hq⟩ := hsome id ctx hl
      refine ⟨⟨r₀, ?_, hagg ▸ hb⟩, ?_⟩
      · rw [firstIntro_append, hr₀]
        rfl
      · rw [qtySum_append, hq', hq]
        simp [qtySum, hid]
    · rw [lookupOrd_updateOrd_ne m id₀ id ctx' he] at h
      obtain ⟨⟨r₀, hr₀, hb⟩, hq⟩ := hsome id ctx'' h
      have hne : introId r ≠ some id := by rw [hid]; simpa using fun hh => he hh.symm
      refine ⟨⟨r₀, ?_, hb⟩, ?_⟩
      · rw [firstIntro_append, hr₀]
        rfl
      · rw [qtySum_append, hq]
        simp [qtySum, hne]

theorem cacheInv_insert {evs : List Row} {m : OrderMap} {r : Row} {id₀ : Int}
    {ctx' : OrderContext}
    (hinv : CacheInv evs m) (hl : lookupOrd m id₀ = none)
    (hid : introId r = some id₀)
    (hb : birthMode r ctx'.is_aggressive)
    (hq' : ctx'.trade_qty + ctx'.resting_qty = r.qty) :
    CacheInv (evs ++ [r]) (m ++ [(id₀, ctx')]) := by
  obtain ⟨hnd, hno, hsome⟩ := hinv
  have hid₀mem : id₀ ∉ keys m := (lookupOrd_eq_none_iff m id₀).mp hl
  refine ⟨?_, fun id h => ?_, fun id ctx'' h => ?_⟩
  · have hkeys : keys (m ++ [(id₀, ctx')]) = keys m ++ [id₀] := by simp [keys]
    rw [hkeys, List.nodup_append]
    refine ⟨hnd, List.nodup_singleton _, fun a ha hb => ?_⟩
    simp at hb
    subst hb
    exact hid₀mem ha
  · -- lookup fails on the extended map: it fails on m and id ≠ id₀
    rcases hm : lookupOrd m id with _ | v
    · rw [lookupOrd_append_none m _ id hm] at h
      have hne : ¬ id₀ = id := by
        intro he
        subst he
        simp [lookupOrd] at h
      rw [firstIntro_append, hno id hm]
      have : introId r ≠ some id := by rw [hid]; simpa using hne
      simp [firstIntro, this]
    · rw [lookupOrd_append_some m _ id v hm] at h
      exact absurd h (by simp)
  · rcases hm : lookupOrd m id with _ | v
    · rw [lookupOrd_append_none m _ id hm] at h
      by_cases he : id₀ = id
      · subst he
        simp only [lookupOrd, if_pos rfl] at h
        injection h with h
        subst h
        have hfi : firstIntro evs id₀ = none := hno id₀ hm
        refine ⟨⟨r, ?_, hb⟩, ?_⟩
        · rw [firstIntro_append, hfi]
          simp [firstIntro, hid]
        · rw [qtySum_append, qtySum_eq_zero_of_firstIntro_eq_none evs id₀ hfi]
          simp [qtySum, hid, hq']
      · simp [lookupOrd, he] at h
    · rw [lookupOrd_append_some m _ id v hm] at h
      injection h with h
      subst h
      obtain ⟨⟨r₀, hr₀, hbb⟩, hq⟩ := hsome id v hm
      have hne : id ≠ id₀ := by
        intro he
        rw [he, hl] at hm
        exact Option.noConfusion hm
      have : introId r ≠ some id := by rw [hid]; simpa using fun hh => hne hh.symm
      refine ⟨⟨r₀, ?_, hbb⟩, ?_⟩
      · rw [firstIntro_append, hr₀]
        rfl
      · rw [qtySum_append, hq]
        simp [qtySum, this]

-- ---------------------------------------------------------------------------
-- Invariant preservation through the handlers and the loop
-- ---------------------------------------------------------------------------

theorem process_trade_cacheInv {r : Row} {m : OrderMap} {tl tl' : List TradeRecord}
    {sid : String} {m' : OrderMap} {evs : List Row}
    (hT : r.type = "T")
    (hok : process_trade r m tl sid = .ok (m', tl'))
    (hinv : CacheInv evs m) :
    CacheInv (evs ++ [r]) m' := by
  by_cases hB : r.tickBSFlag = "B"
  · have hid : introId r = some r.buyOrderNO := by simp [introId, hT, hB]
    rcases hl : lookupOrd m r.buyOrderNO with _ | ctx
    · simp only [process_trade, hB] at hok
      simp [hl, OrderContext.add_trade_qty] at hok
      obtain ⟨hok1, hok2⟩ := hok
      subst hok1
      exact cacheInv_insert hinv hl hid (Or.inl ⟨hT, rfl⟩) (by simp)
    · by_cases hq : r.qty < 0
      · simp only [process_trade, hB] at hok
        simp [hl, OrderContext.add_trade_qty, hq] at hok
      · simp only [process_trade, hB] at hok
        simp [hl, OrderContext.add_trade_qty, hq] at hok
        obtain ⟨hok1, hok2⟩ := hok
        subst hok1
        exact cacheInv_update hinv hl hid rfl (by simp; ring)
  · by_cases hS : r.tickBSFlag = "S"
    · have hid : introId r = some r.sellOrderNO := by simp [introId, hT, hB, hS]
      rcases hl : lookupOrd m r.sellOrderNO with _ | ctx
      · simp only [process_trade, hB, hS] at hok
        simp [hl, OrderContext.add_trade_qty] at hok
        obtain ⟨hok1, hok2⟩ := hok
        subst hok1
        exact cacheInv_insert hinv hl hid (Or.inl ⟨hT, rfl⟩) (by simp)
      · by_cases hq : r.qty < 0
        · simp only [process_trade, hB, hS] at hok
          simp [hl, OrderContext.add_trade_qty, hq] at hok
        · simp only [process_trade, hB, hS] at hok
          simp [hl, OrderContext.add_trade_qty, hq] at hok
          obtain ⟨hok1, hok2⟩ := hok
          subst hok1
          exact cacheInv_update hinv hl hid rfl (by simp; ring)
    · have hid : introId r = none := by simp [introId, hT, hB, hS]
      simp only [process_trade, hB, hS] at hok
      simp at hok
      obtain ⟨hok1, hok2⟩ := hok
      subst hok1
      exact cacheInv_noop hinv hid

theorem process_add_order_cacheInv {r : Row} {m m' : OrderMap} {evs : List Row}
    (hA : r.type = "A")
    (hok : process_add_order r m = .ok m')
    (hinv : CacheInv evs m) :
    CacheInv (evs ++ [r]) m' := by
  have hid : introId r =
      some (if r.tickBSFlag = "B" then r.buyOrderNO else r.sellOrderNO) := by
    simp [introId, hA]
  rcases hl : lookupOrd m (if r.tickBSFlag = "B" then r.buyOrderNO else r.sellOrderNO)
    with _ | ctx
  · by_cases hq : r.qty < 0
    · simp only [process_add_order] at hok
      simp [hl, OrderContext.add_resting_qty, hq] at hok
    · simp only [process_add_order] at hok
      simp [hl, OrderContext.add_resting_qty, hq] at hok
      subst hok
      exact cacheInv_insert hinv hl hid (Or.inr ⟨hA, rfl⟩) (by simp)
  · by_cases hq : r.qty < 0
    · simp only [process_add_order] at hok
      simp [hl, OrderContext.add_resting_qty, hq] at hok
    · simp only [process_add_order] at hok
      simp [hl, OrderContext.add_resting_qty, hq] at hok
      subst hok
      exact cacheInv_update hinv hl hid rfl (by simp; ring)

theorem stepEvent_cacheInv {sid : String} {st st' : EngState} {r : Row}
    {evs : List Row}
    (hstep : stepEvent sid st r = .ok st')
    (hinv : CacheInv evs st.order_map) :
    CacheInv (evs ++ [r]) st'.order_map := by
  by_cases hT : r.type = "T"
  · simp only [stepEvent, hT, if_pos rfl] at hstep
    rcases hpt : process_trade r st.order_map st.trade_list sid with e | ⟨m, tl⟩
    · rw [hpt] at hstep
      exact absurd hstep (by simp)
    · rw [hpt] at hstep
      injection hstep with hstep
      subst hstep
      exact process_trade_cacheInv hT hpt hinv
  · by_cases hA : r.type = "A"
    · simp only [stepEvent, hT, hA, if_neg hT, if_pos rfl] at hstep
      rcases hpa : process_add_order r st.order_map with e | m
      · rw [hpa] at hstep
        exact absurd hstep (by simp)
      · rw [hpa] at hstep
        injection hstep with hstep
        subst hstep
        exact process_add_order_cacheInv hA hpa hinv
    · by_cases hD : r.type = "D"
      · simp only [stepEvent, hT, hA, hD, if_neg hT, if_neg hA, if_pos rfl] at hstep
        injection hstep with hstep
        subst hstep
        exact cacheInv_noop hinv (by simp [introId, hT, hA])
      · simp only [stepEvent, hT, hA, hD, if_neg hT, if_neg hA, if_neg hD] at hstep
        injection hstep with hstep
        subst hstep
        exact cacheInv_noop hinv (by simp [introId, hT, hA])

theorem runEvents_cacheInv {sid : String} :
    ∀ (evs : List Row) (pre : List Row) (st st' : EngState),
      CacheInv pre st.order_map →
      runEvents sid st evs = .ok st' →
      CacheInv (pre ++ evs) st'.order_map := by
  intro evs
  induction evs with
  | nil =>
    intro pre st st' hinv hrun
    injection hrun with hrun
    subst hrun
    simpa using hinv
  | cons r rest ih =>
    intro pre st st' hinv hrun
    simp only [runEvents] at hrun
    rcases hstep : stepEvent sid st r with e | st₁
    · rw [hstep] at hrun
      exact absurd hrun (by simp)
    · rw [hstep] at hrun
      have h₁ := stepEvent_cacheInv hstep hinv
      have := ih (pre ++ [r]) st₁ st' h₁ hrun
      simpa using this

/-- The cache invariant holds at the end of any successful engine run. -/
theorem runEvents_cacheInv_init {sid : String} {evs : List Row} {st' : EngState}
    (hrun : runEvents sid initState evs = .ok st') :
    CacheInv evs st'.order_map := by
  have := runEvents_cacheInv evs [] initState st' cacheInv_nil hrun
  simpa using this

-- ---------------------------------------------------------------------------
-- Settlement lemmas
-- ---------------------------------------------------------------------------

/-- The New record `settle_orders` emits for one cache entry. -/
def newRecord (sid : String) (order_no : Int) (ctx : OrderContext) : OrderRecord :=
  { securityId := sid
    bizIndex := ctx.first_biz_index
    tickTime := ctx.first_time
    ordId := order_no
    ordType := "New"
    side := ctx.side
    price := if ctx.resting_price > 0 then ctx.resting_price else ctx.trade_price
    qty := ctx.trade_qty + ctx.resting_qty
    isAggressive := some ctx.is_aggressive }

theorem mem_settle_orders (sid : String) (m : OrderMap) (rec : OrderRecord) :
    rec ∈ settle_orders sid m ↔
      ∃ k ctx, (k, ctx) ∈ m ∧ 0 < ctx.trade_qty + ctx.resting_qty ∧
        rec = newRecord sid k ctx := by
  induction m with
  | nil => simp [settle_orders]
  | cons p rest ih =>
    obtain ⟨k', ctx'⟩ := p
    by_cases h : ctx'.trade_qty + ctx'.resting_qty ≤ 0
    · rw [show settle_orders sid ((k', ctx') :: rest) = settle_orders sid rest by
        simp [settle_orders, h]]
      rw [ih]
      constructor
      · rintro ⟨k, ctx, hmem, hpos, hrec⟩
        exact ⟨k, ctx, List.mem_cons_of_mem _ hmem, hpos, hrec⟩
      · rintro ⟨k, ctx, hmem, hpos, hrec⟩
        rcases List.mem_cons.mp hmem with he | hmem'
        · injection he with he1 he2
          subst he1; subst he2
          omega
        · exact ⟨k, ctx, hmem', hpos, hrec⟩
    · rw [show settle_orders sid ((k', ctx') :: rest) =
          newRecord sid k' ctx' :: settle_orders sid rest by
        simp [settle_orders, h, newRecord]]
      simp only [List.mem_cons, ih]
      constructor
      · rintro (he | ⟨k, ctx, hmem, hpos, hrec⟩)
        · exact ⟨k', ctx', Or.inl rfl, by omega, he⟩
        · exact ⟨k, ctx, Or.inr hmem, hpos, hrec⟩
      · rintro ⟨k, ctx, hmem, hpos, hrec⟩
        rcases hmem with he | hmem'
        · injection he with he1 he2
          subst he1; subst he2
          exact Or.inl hrec
        · exact Or.inr ⟨k, ctx, hmem', hpos, hrec⟩

theorem countP_settle_orders (sid : String) (m : OrderMap) (id : Int)
    (hnd : (keys m).Nodup) :
    (settle_orders sid m).countP (fun rec => rec.ordId == id) =
      (match lookupOrd m id with
       | some ctx => if 0 < ctx.trade_qty + ctx.resting_qty then 1 else 0
       | none => 0) := by
  induction m with
  | nil => simp [settle_orders, lookupOrd]
  | cons p rest ih =>
    obtain ⟨k', ctx'⟩ := p
    simp only [keys, List.map_cons, List.nodup_cons] at hnd
    have ih' := ih hnd.2
    by_cases hk : k' = id
    · subst hk
      have hrest : lookupOrd rest k' = none := by
        rw [lookupOrd_eq_none_iff]
        exact fun hmem => hnd.1 hmem
      have hrest0 : (settle_orders sid rest).countP (fun rec => rec.ordId == k') = 0 := by
        rw [ih', hrest]
      by_cases h : ctx'.trade_qty + ctx'.resting_qty ≤ 0
      · rw [show settle_orders sid ((k', ctx') :: rest) = settle_orders sid rest by
          simp [settle_orders, h]]
        rw [hrest0]
        have hlt : ¬ 0 < ctx'.trade_qty + ctx'.resting_qty := by omega
        simp [lookupOrd, hlt]
      · rw [show settle_orders sid ((k', ctx') :: rest) =
            newRecord sid k' ctx' :: settle_orders sid rest by
          simp [settle_orders, h, newRecord]]
        rw [List.countP_cons]
        rw [hrest0]
        have hlt : 0 < ctx'.trade_qty + ctx'.resting_qty := by omega
        simp [lookupOrd, newRecord, hlt]
    · have hlook : lookupOrd ((k', ctx') :: rest) id = lookupOrd rest id := by
        simp [lookupOrd, hk]
      rw [hlook]
      by_cases h : ctx'.trade_qty + ctx'.resting_qty ≤ 0
      · rw [show settle_orders sid ((k', ctx') :: rest) = settle_orders sid rest by
          simp [settle_orders, h]]
        exact ih'
      · rw [show settle_orders sid ((k', ctx') :: rest) =
            newRecord sid k' ctx' :: settle_orders sid rest by
          simp [settle_orders, h, newRecord]]
        rw [List.countP_cons]
        simp [newRecord, hk]
        exact ih'

-- ---------------------------------------------------------------------------
-- The order list produced during the run holds only Cancel records
-- ---------------------------------------------------------------------------

/-- All records of a list are cancellations (as emitted inline by Delete
handling; New records appear only at settlement). -/
def AllCancel (l : List OrderRecord) : Prop :=
  ∀ rec ∈ l, rec.ordType = "Cancel" ∧ rec.isAggressive = none

theorem stepEvent_allCancel {sid : String} {st st' : EngState} {r : Row}
    (hstep : stepEvent sid st r = .ok st')
    (h : AllCancel st.order_list) : AllCancel st'.order_list := by
  by_cases hT : r.type = "T"
  · simp only [stepEvent, hT, if_pos rfl] at hstep
    rcases hpt : process_trade r st.order_map st.trade_list sid with e | ⟨m, tl⟩ <;>
      rw [hpt] at hstep
    · exact absurd hstep (by simp)
    · injection hstep with hstep
      subst hstep
      exact h
  · by_cases hA : r.type = "A"
    · simp only [stepEvent, hT, hA, if_neg hT, if_pos rfl] at hstep
      rcases hpa : process_add_order r st.order_map with e | m <;> rw [hpa] at hstep
      · exact absurd hstep (by simp)
      · injection hstep with hstep
        subst hstep
        exact h
    · by_cases hD : r.type = "D"
      · simp only [stepEvent, hT, hA, hD, if_neg hT, if_neg hA, if_pos rfl] at hstep
        injection hstep with hstep
        subst hstep
        intro rec hrec
        simp only [process_delete_order, List.mem_append, List.mem_singleton] at hrec
        rcases hrec with hrec | hrec
        · exact h rec hrec
        · subst hrec
          exact ⟨rfl, rfl⟩
      · simp only [stepEvent, hT, hA, hD, if_neg hT, if_neg hA, if_neg hD] at hstep
        injection hstep with hstep
        subst hstep
        exact h

theorem runEvents_allCancel {sid : String} :
    ∀ (evs : List Row) (st st' : EngState),
      AllCancel st.order_list →
      runEvents sid st evs = .ok st' →
      AllCancel st'.order_list := by
  intro evs
  induction evs with
  | nil =>
    intro st st' h hrun
    injection hrun with hrun
    subst hrun
    exact h
  | cons r rest ih =>
    intro st st' h hrun
    simp only [runEvents] at hrun
    rcases hstep : stepEvent sid st r with e | st₁ <;> rw [hstep] at hrun
    · exact absurd hrun (by simp)
    · exact ih st₁ st' (stepEvent_allCancel hstep h) hrun

-- ---------------------------------------------------------------------------
-- Handler output characterizations
-- ---------------------------------------------------------------------------

/-- The Cancel record `process_delete_order` appends. -/
def cancelRecord (r : Row) (m : OrderMap) (lp : ℚ) (sid : String) : OrderRecord :=
  { securityId := sid
    bizIndex := r.bizIndex
    tickTime := r.tickTime
    ordId := if r.tickBSFlag = "B" then r.buyOrderNO else r.sellOrderNO
    ordType := "Cancel"
    side := if r.tickBSFlag = "B" then "B" else "S"
    price :=
      if r.price > 0 then r.price
      else
        match lookupOrd m (if r.tickBSFlag = "B" then r.buyOrderNO else r.sellOrderNO) with
        | some ctx => ctx.get_price
        | none => lp
    qty := r.qty
    isAggressive := none }

theorem process_delete_order_eq (r : Row) (m : OrderMap) (lst : List OrderRecord)
    (lp : ℚ) (sid : String) :
    process_delete_order r m lst lp sid = lst ++ [cancelRecord r m lp sid] := rfl

/-- The trade record `process_trade` appends unconditionally. -/
def tradeRecordOf (r : Row) (sid : String) : TradeRecord :=
  { securityId := sid
    bizIndex := r.bizIndex
    tickTime := r.tickTime
    bidOrdId := r.buyOrderNO
    askOrdId := r.sellOrderNO
    price := r.price
    qty := r.qty
    tradeMoney :=
      match r.tradeMoney with
      | none => r.price * r.qty
      | some tm => if tm = 0 then r.price * r.qty else tm
    activeSide :=
      if r.tickBSFlag = "B" then 1 else if r.tickBSFlag = "S" then 2 else 0 }

theorem process_trade_trade_list {r : Row} {m : OrderMap} {tl : List TradeRecord}
    {sid : String} {m' : OrderMap} {tl' : List TradeRecord}
    (hok : process_trade r m tl sid = .ok (m', tl')) :
    tl' = tl ++ [tradeRecordOf r sid] := by
  by_cases hB : r.tickBSFlag = "B"
  · rcases hl : lookupOrd m r.buyOrderNO with _ | ctx
    · simp only [process_trade, hB] at hok
      simp [hl, OrderContext.add_trade_qty] at hok
      simp [tradeRecordOf, hB, hok.2.symm]
    · by_cases hq : r.qty < 0
      · simp only [process_trade, hB] at hok
        simp [hl, OrderContext.add_trade_qty, hq] at hok
      · simp only [process_trade, hB] at hok
        simp [hl, OrderContext.add_trade_qty, hq] at hok
        simp [tradeRecordOf, hB, hok.2.symm]
  · by_cases hS : r.tickBSFlag = "S"
    · rcases hl : lookupOrd m r.sellOrderNO with _ | ctx
      · simp only [process_trade, hB, hS] at hok
        simp [hl, OrderContext.add_trade_qty] at hok
        simp [tradeRecordOf, hB, hS, hok.2.symm]
      · by_cases hq : r.qty < 0
        · simp only [process_trade, hB, hS] at hok
          simp [hl, OrderContext.add_trade_qty, hq] at hok
        · simp only [process_trade, hB, hS] at hok
          simp [hl, OrderContext.add_trade_qty, hq] at hok
          simp [tradeRecordOf, hB, hS, hok.2.symm]
    · simp only [process_trade, hB, hS] at hok
      simp at hok
      simp [tradeRecordOf, hB, hS, hok.2.symm]

-- ---------------------------------------------------------------------------
-- Concrete rows used by the witnesses
-- ---------------------------------------------------------------------------

/-- Scenario D, first row: Add 1000@70.0 on buy order 4001. -/
def rowAdd4001 : Row :=
  { securityId := "600519", bizIndex := 400, tickTime := 93003000, type := "A",
    buyOrderNO := 4001, sellOrderNO := 0, price := 70, qty := 1000,
    tradeMoney := some 0, tickBSFlag := "B" }

/-- Scenario D, second row: Delete qty=500 price=0 on the same order. -/
def rowDel4001 : Row :=
  { securityId := "600519", bizIndex := 401, tickTime := 93003500, type := "D",
    buyOrderNO := 4001, sellOrderNO := 0, price := 0, qty := 500,
    tradeMoney := some 0, tickBSFlag := "B" }

/-- Trade 600@60.0 on buy order 1002 (scenario B, first row). -/
def rowTrade1002 : Row :=
  { securityId := "600519", bizIndex := 200, tickTime := 93001000, type := "T",
    buyOrderNO := 1002, sellOrderNO := 2002, price := 60, qty := 600,
    tradeMoney := some 36000, tickBSFlag := "B" }

/-- Add 400@61 on the same buy order 1002 (scenario B shape: Trade then Add
on one id; an integer price keeps concrete evaluation kernel-reducible). -/
def rowAdd1002 : Row :=
  { securityId := "600519", bizIndex := 201, tickTime := 93001100, type := "A",
    buyOrderNO := 1002, sellOrderNO := 0, price := 61, qty := 400,
    tradeMoney := none, tickBSFlag := "B" }

/-- An auction-matched trade (TickBSFlag that is neither 'B' nor 'S'). -/
def rowAuction : Row :=
  { securityId := "600519", bizIndex := 10, tickTime := 93000200, type := "T",
    buyOrderNO := 21, sellOrderNO := 22, price := 5, qty := 50,
    tradeMoney := none, tickBSFlag := "N" }

-- ---------------------------------------------------------------------------
-- C3: Cancel price fallback
-- ---------------------------------------------------------------------------

/-- C3: every Delete event processed by the engine appends exactly one Cancel
record carrying the Delete event's own BizIndex/TickTime and a null
isAggressive, whose price is the three-level fallback: the event's own price
if strictly positive, else the cached context's effective price when the
resolved order id is cached, else the engine's last observed trade price. -/
theorem claim_C3_delete_price_fallback (sid : String) (st st' : EngState) (r : Row)
    (hD : r.type = "D") (hstep : stepEvent sid st r = .ok st') :
    ∃ rec, st'.order_list = st.order_list ++ [rec] ∧
      rec.bizIndex = r.bizIndex ∧ rec.tickTime = r.tickTime ∧
      rec.ordType = "Cancel" ∧ rec.isAggressive = none ∧
      rec.price =
        (if r.price > 0 then r.price
         else
           match lookupOrd st.order_map
               (if r.tickBSFlag = "B" then r.buyOrderNO else r.sellOrderNO) with
           | some ctx => ctx.get_price
           | none => st.last_price) := by
  simp only [stepEvent, hD] at hstep
  simp at hstep
  subst hstep
  rw [process_delete_order_eq]
  exact ⟨cancelRecord r st.order_map st.last_price sid, rfl, rfl, rfl, rfl, rfl, rfl⟩

/-- Witness for C3 at a concrete Delete event. -/
theorem claim_C3_witness :
    ∃ rec,
      (EngState.order_list
        { initState with
            order_list := [cancelRecord rowDel4001 [] 0 "600519"] }) =
        initState.order_list ++ [rec] ∧
      rec.bizIndex = rowDel4001.bizIndex ∧ rec.tickTime = rowDel4001.tickTime ∧
      rec.ordType = "Cancel" ∧ rec.isAggressive = none ∧
      rec.price =
        (if rowDel4001.price > 0 then rowDel4001.price
         else
           match lookupOrd initState.order_map
               (if rowDel4001.tickBSFlag = "B" then rowDel4001.buyOrderNO
                else rowDel4001.sellOrderNO) with
           | some ctx => ctx.get_price
           | none => initState.last_price) :=
  claim_C3_delete_price_fallback "600519" initState
    { initState with order_list := [cancelRecord rowDel4001 [] 0 "600519"] }
    rowDel4001 rfl (by decide)

-- ---------------------------------------------------------------------------
-- C4: Delete events never modify the cache; scenario D
-- ---------------------------------------------------------------------------

/-- C4: a Delete event leaves the order cache bit-for-bit unchanged, and on
the concrete scenario (Add 1000@70.0 order 4001, then Delete qty=500 price=0)
the pipeline emits both the settled New record (qty 1000, price 70, maker)
and the Cancel record (price 70, null isAggressive). -/
theorem claim_C4_delete_frame :
    (∀ (sid : String) (st st' : EngState) (r : Row), r.type = "D" →
        stepEvent sid st r = .ok st' → st'.order_map = st.order_map) ∧
      reconstruct_sh_tick_data [rowAdd4001, rowDel4001] "600519" =
        .ok ([{ securityId := "600519", bizIndex := 400, tickTime := 93003000,
                ordId := 4001, ordType := "New", side := "B", price := 70,
                qty := 1000, isAggressive := some false },
              { securityId := "600519", bizIndex := 401, tickTime := 93003500,
                ordId := 4001, ordType := "Cancel", side := "B", price := 70,
                qty := 500, isAggressive := none }], []) := by
  constructor
  · intro sid st st' r hD hstep
    simp only [stepEvent, hD] at hstep
    simp at hstep
    subst hstep
    rfl
  · decide

/-- Witness for C4 at a concrete Delete event. -/
theorem claim_C4_witness :
    EngState.order_map
        { initState with
            order_list := [cancelRecord rowDel4001 [] 0 "600519"] } =
      initState.order_map :=
  claim_C4_delete_frame.1 "600519" initState
    { initState with order_list := [cancelRecord rowDel4001 [] 0 "600519"] }
    rowDel4001 rfl (by decide)

-- ---------------------------------------------------------------------------
-- C6: auction trades leave the cache unchanged but still emit a trade record
-- ---------------------------------------------------------------------------

/-- C6: a Trade event whose TickBSFlag is neither 'B' nor 'S' (auction match)
always succeeds, never creates or mutates an OrderContext, and still appends
a trade record with activeSide = 0. -/
theorem claim_C6_auction_trade_frame (sid : String) (st : EngState) (r : Row)
    (hT : r.type = "T") (hB : r.tickBSFlag ≠ "B") (hS : r.tickBSFlag ≠ "S") :
    ∃ st', stepEvent sid st r = .ok st' ∧
      st'.order_map = st.order_map ∧
      ∃ rec, st'.trade_list = st.trade_list ++ [rec] ∧ rec.activeSide = 0 := by
  refine ⟨{ st with
              trade_list := st.trade_list ++ [tradeRecordOf r sid]
              last_price := if r.price > 0 then r.price else st.last_price },
          ?_, rfl, tradeRecordOf r sid, rfl, by simp [tradeRecordOf, hB, hS]⟩
  have hpt : process_trade r st.order_map st.trade_list sid =
      .ok (st.order_map, st.trade_list ++ [tradeRecordOf r sid]) := by
    simp only [process_trade, hB, hS]
    simp [tradeRecordOf, hB, hS]
  simp [stepEvent, hT, hpt]

/-- Witness for C6 at a concrete auction trade. -/
theorem claim_C6_witness :
    ∃ st', stepEvent "600519" initState rowAuction = .ok st' ∧
      st'.order_map = initState.order_map ∧
      ∃ rec, st'.trade_list = initState.trade_list ++ [rec] ∧ rec.activeSide = 0 :=
  claim_C6_auction_trade_frame "600519" initState rowAuction rfl
    (by decide) (by decide)

-- ---------------------------------------------------------------------------
-- C5: trade record emission and tradeMoney
-- ---------------------------------------------------------------------------

/-- A Trade event whose source tradeMoney is present but negative (hence not
strictly positive). -/
def rowNegMoney : Row :=
  { securityId := "600519", bizIndex := 2, tickTime := 93000100, type := "T",
    buyOrderNO := 11, sellOrderNO := 12, price := 2, qty := 3,
    tradeMoney := some (-1), tickBSFlag := "N" }

/-- C5 counterexample: for a Trade event with source tradeMoney = -1 (present
but not strictly positive) and price × qty = 6, the engine emits
tradeMoney = -1, not price × qty as the claim demands. -/
theorem claim_C5_counterexample :
    stepEvent "600519" initState rowNegMoney =
      .ok { initState with
              trade_list := [tradeRecordOf rowNegMoney "600519"]
              last_price := 2 } ∧
    (tradeRecordOf rowNegMoney "600519").tradeMoney = -1 ∧
    ¬ ((-1 : ℚ) > 0) ∧
    rowNegMoney.price * (rowNegMoney.qty : ℚ) = 6 ∧
    (tradeRecordOf rowNegMoney "600519").tradeMoney ≠
      rowNegMoney.price * (rowNegMoney.qty : ℚ) := by
  have hmul : rowNegMoney.price * (rowNegMoney.qty : ℚ) = 6 := by
    norm_num [rowNegMoney]
  refine ⟨by decide, by decide, by norm_num, hmul, ?_⟩
  rw [hmul]
  decide

/-- C5 (amended): every successfully processed Trade event appends exactly one
trade record, whose tradeMoney is the source value when present and **nonzero**
(the code tests `== 0`, not `> 0`), and price × qty when the source value is
absent or zero. -/
theorem claim_C5_trade_money (sid : String) (st st' : EngState) (r : Row)
    (hT : r.type = "T") (hstep : stepEvent sid st r = .ok st') :
    ∃ rec, st'.trade_list = st.trade_list ++ [rec] ∧
      rec.tradeMoney =
        (match r.tradeMoney with
         | none => r.price * r.qty
         | some tm => if tm = 0 then r.price * r.qty else tm) := by
  simp only [stepEvent, hT, if_pos rfl] at hstep
  rcases hpt : process_trade r st.order_map st.trade_list sid with e | ⟨m, tl⟩ <;>
    rw [hpt] at hstep
  · exact absurd hstep (by simp)
  · injection hstep with hstep
    subst hstep
    exact ⟨tradeRecordOf r sid, process_trade_trade_list hpt, rfl⟩

/-- Witness for the amended C5 at a concrete Trade event. -/
theorem claim_C5_witness :
    ∃ rec,
      (EngState.trade_list
        { initState with
            trade_list := [tradeRecordOf rowNegMoney "600519"]
            last_price := 2 }) = initState.trade_list ++ [rec] ∧
      rec.tradeMoney =
        (match rowNegMoney.tradeMoney with
         | none => rowNegMoney.price * rowNegMoney.qty
         | some tm => if tm = 0 then rowNegMoney.price * rowNegMoney.qty else tm) :=
  claim_C5_trade_money "600519" initState
    { initState with
        trade_list := [tradeRecordOf rowNegMoney "600519"]
        last_price := 2 }
    rowNegMoney rfl (by decide)

-- ---------------------------------------------------------------------------
-- C7: status events and out-of-session events contribute nothing
-- ---------------------------------------------------------------------------

/-- C7: the session filter is exactly the two half-open continuous-auction
intervals, and a Status-typed event or an event outside those intervals can be
deleted from anywhere in the input without changing the output at all; in
particular any event timestamped 09:25 (any type) contributes nothing. -/
theorem claim_C7_filtered_no_output :
    (∀ t : Int, is_continuous_trading_time t = true ↔
       (MORNING_START ≤ t ∧ t < MORNING_END) ∨
         (AFTERNOON_START ≤ t ∧ t < AFTERNOON_END)) ∧
    (∀ (l₁ l₂ : List Row) (e : Row) (sid : String),
       e.type = "S" ∨ is_continuous_trading_time e.tickTime = false →
       reconstruct_sh_tick_data (l₁ ++ e :: l₂) sid =
         reconstruct_sh_tick_data (l₁ ++ l₂) sid) ∧
    (∀ (l₁ l₂ : List Row) (e : Row) (sid : String),
       92500000 ≤ e.tickTime → e.tickTime < 92600000 →
       reconstruct_sh_tick_data (l₁ ++ e :: l₂) sid =
         reconstruct_sh_tick_data (l₁ ++ l₂) sid) := by
  have hmain : ∀ (l₁ l₂ : List Row) (e : Row) (sid : String),
      e.type = "S" ∨ is_continuous_trading_time e.tickTime = false →
      reconstruct_sh_tick_data (l₁ ++ e :: l₂) sid =
        reconstruct_sh_tick_data (l₁ ++ l₂) sid := by
    intro l₁ l₂ e sid h
    have hpred : (e.type ≠ "S" && is_continuous_trading_time e.tickTime) = false := by
      rcases h with h | h
      · simp [h]
      · simp [h]
    have hpre : preprocess (l₁ ++ e :: l₂) = preprocess (l₁ ++ l₂) := by
      unfold preprocess
      congr 1
      simp only [List.filter_append, List.filter_cons, hpred]
      simp
    unfold reconstruct_sh_tick_data
    rw [hpre]
  refine ⟨?_, hmain, ?_⟩
  · intro t
    constructor
    · intro h
      by_cases h1 : MORNING_START ≤ t ∧ t < MORNING_END
      · exact Or.inl h1
      · by_cases h2 : AFTERNOON_START ≤ t ∧ t < AFTERNOON_END
        · exact Or.inr h2
        · simp [is_continuous_trading_time, h1, h2] at h
    · intro h
      rcases h with h | h <;> simp [is_continuous_trading_time, h]
  · intro l₁ l₂ e sid h1 h2
    refine hmain l₁ l₂ e sid (Or.inr ?_)
    simp [is_continuous_trading_time, MORNING_START, MORNING_END,
      AFTERNOON_START, AFTERNOON_END]
    omega

/-- Witness for C7: deleting a Status event and a 09:25 event from a concrete
feed leaves the output unchanged. -/
theorem claim_C7_witness :
    reconstruct_sh_tick_data
        ([rowAdd4001] ++
          { rowAuction with type := "S", tickTime := 92500000 } :: [rowDel4001])
        "600519" =
      reconstruct_sh_tick_data ([rowAdd4001] ++ [rowDel4001]) "600519" :=
  claim_C7_filtered_no_output.2.2 [rowAdd4001] [rowDel4001]
    { rowAuction with type := "S", tickTime := 92500000 } "600519"
    (by decide) (by decide)

-- ---------------------------------------------------------------------------
-- C8: negative quantities and the cache
-- ---------------------------------------------------------------------------

/-- A Trade event carrying a negative quantity on an uncached aggressor id. -/
def rowNegQty : Row :=
  { securityId := "600519", bizIndex := 1, tickTime := 93000000, type := "T",
    buyOrderNO := 9001, sellOrderNO := 9002, price := 10, qty := -100,
    tradeMoney := some 1000, tickBSFlag := "B" }

/-- The engine state after feeding `rowNegQty` into a fresh engine. -/
def negQtyState : EngState :=
  { order_map :=
      [(9001, { order_no := 9001, side := "B", first_time := 93000000,
                first_biz_index := 1, trade_qty := -100, resting_qty := 0,
                trade_price := 10, resting_price := 0, is_aggressive := true,
                has_resting := false })],
    order_list := [], trade_list := [tradeRecordOf rowNegQty "600519"],
    last_price := 10 }

/-- C8 (code bug): a Trade event with qty = -100 on an uncached order id is
accepted without any error — the new-order branch of `process_trade` writes
`trade_qty = qty` through the constructor, bypassing the `add_trade_qty`
negative-quantity guard — and the cache ends up holding an OrderContext with
`trade_qty = -100 < 0`, contradicting the claim that such events are rejected
and that no cached context ever holds a negative quantity. -/
theorem claim_C8_negative_qty_accepted :
    rowNegQty.qty < 0 ∧
    stepEvent "600519" initState rowNegQty = .ok negQtyState ∧
    (lookupOrd negQtyState.order_map 9001).map OrderContext.trade_qty =
      some (-100) := by
  refine ⟨by decide, by decide, by decide⟩

-- ---------------------------------------------------------------------------
-- C10: non-'B' flags resolve to the sell side for Add and Delete
-- ---------------------------------------------------------------------------

/-- C10: for any TickBSFlag other than 'B' (including 'N', empty or garbage),
`process_add_order` and `process_delete_order` resolve the order id from
SellOrderNO with side 'S' — the Add handler touches no other cache key and any
context it creates carries side 'S' — while only the Trade handler has a
distinct third branch: for a flag that is neither 'B' nor 'S' it leaves the
cache untouched. -/
theorem claim_C10_non_B_flag_sell (r : Row) (hB : r.tickBSFlag ≠ "B") :
    (∀ (m : OrderMap) (lst : List OrderRecord) (lp : ℚ) (sid : String),
       ∃ rec, process_delete_order r m lst lp sid = lst ++ [rec] ∧
         rec.ordId = r.sellOrderNO ∧ rec.side = "S") ∧
    (∀ (m m' : OrderMap), process_add_order r m = .ok m' →
       (∀ k, k ≠ r.sellOrderNO → lookupOrd m' k = lookupOrd m k) ∧
       (lookupOrd m r.sellOrderNO = none →
          (lookupOrd m' r.sellOrderNO).map (fun ctx => (ctx.side, ctx.order_no)) =
            some ("S", r.sellOrderNO))) ∧
    (r.tickBSFlag ≠ "S" →
       ∀ (m : OrderMap) (tl : List TradeRecord) (sid : String) (m' : OrderMap)
         (tl' : List TradeRecord),
         process_trade r m tl sid = .ok (m', tl') → m' = m) := by
  refine ⟨?_, ?_, ?_⟩
  · intro m lst lp sid
    exact ⟨cancelRecord r m lp sid, process_delete_order_eq r m lst lp sid,
      by simp [cancelRecord, hB], by simp [cancelRecord, hB]⟩
  · intro m m' hok
    rcases hl : lookupOrd m r.sellOrderNO with _ | ctx
    · by_cases hq : r.qty < 0
      · simp only [process_add_order, hB] at hok
        simp [hl, OrderContext.add_resting_qty, hq] at hok
      · simp only [process_add_order, hB] at hok
        simp [hl, OrderContext.add_resting_qty, hq] at hok
        subst hok
        refine ⟨fun k hk => ?_, fun _ => ?_⟩
        · rcases hlk : lookupOrd m k with _ | v
          · rw [lookupOrd_append_none m _ k hlk]
            have hks : ¬ r.sellOrderNO = k := fun hh => hk hh.symm
            simp [lookupOrd, hks]
          · rw [lookupOrd_append_some m _ k v hlk]
        · rw [lookupOrd_append_none m _ _ hl]
          simp [lookupOrd]
    · by_cases hq : r.qty < 0
      · simp only [process_add_order, hB] at hok
        simp [hl, OrderContext.add_resting_qty, hq] at hok
      · simp only [process_add_order, hB] at hok
        simp [hl, OrderContext.add_resting_qty, hq] at hok
        subst hok
        exact ⟨fun k hk => lookupOrd_updateOrd_ne m _ k _ hk,
               fun hnone => Option.noConfusion hnone⟩
  · intro hS m tl sid m' tl' hok
    simp only [process_trade, hB, hS] at hok
    simp at hok
    exact hok.1.symm

/-- Witness for C10 at a concrete flag 'N' row. -/
theorem claim_C10_witness :
    ∃ rec, process_delete_order rowAuction [] [] 0 "600519" = [] ++ [rec] ∧
      rec.ordId = rowAuction.sellOrderNO ∧ rec.side = "S" :=
  (claim_C10_non_B_flag_sell rowAuction (by decide)).1 [] [] 0 "600519"

-- ---------------------------------------------------------------------------
-- C1: isAggressive is fixed by the birth event
-- ---------------------------------------------------------------------------

/-- C1: the aggressiveness flag of a cached OrderContext is fixed by the type
of the event that first introduced its order id (Trade => true, Add => false)
and is never changed by any later event — after any successful run over any
event sequence the cached flag still matches the first introducing event —
and consequently every settled New record carries isAggressive = true when
the id's first post-filter appearance is a Trade event and false when it is
an Add event. -/
theorem claim_C1_isAggressive_birth :
    (∀ (sid : String) (evs : List Row) (st : EngState),
       runEvents sid initState evs = .ok st →
       ∀ id ctx, lookupOrd st.order_map id = some ctx →
         ∃ r, firstIntro evs id = some r ∧
           ((r.type = "T" ∧ ctx.is_aggressive = true) ∨
            (r.type = "A" ∧ ctx.is_aggressive = false))) ∧
    (∀ (rows : List Row) (sid : String) (orders : List OrderRecord)
       (trades : List TradeRecord),
       reconstruct_sh_tick_data rows sid = .ok (orders, trades) →
       ∀ rec ∈ orders, rec.ordType = "New" →
         ∃ r, firstIntro (preprocess rows) rec.ordId = some r ∧
           ((r.type = "T" ∧ rec.isAggressive = some true) ∨
            (r.type = "A" ∧ rec.isAggressive = some false))) := by
  constructor
  · intro sid evs st hrun id ctx hlook
    obtain ⟨hnd, hno, hsome⟩ := runEvents_cacheInv_init hrun
    obtain ⟨⟨r, hfi, hb⟩, _⟩ := hsome id ctx hlook
    exact ⟨r, hfi, hb⟩
  · intro rows sid orders trades h rec hrec hnew
    unfold reconstruct_sh_tick_data at h
    rcases hrun : runEvents sid initState (preprocess rows) with e | st <;>
      rw [hrun] at h
    · exact absurd h (by simp)
    · injection h with h
      injection h with h1 h2
      subst h1
      rw [List.mem_insertionSort, List.mem_append] at hrec
      rcases hrec with hrec | hrec
      · -- records produced inline are all Cancel records
        have hac := runEvents_allCancel (preprocess rows) initState st
          (by intro x hx; simp [initState] at hx) hrun
        have := (hac rec hrec).1
        rw [hnew] at this
        exact absurd this (by decide)
      · -- settled records come from cache entries governed by the invariant
        obtain ⟨k, ctx, hmem, hpos, hrec⟩ := (mem_settle_orders sid _ rec).mp hrec
        obtain ⟨hnd, hno, hsome⟩ := runEvents_cacheInv_init hrun
        have hlook := lookupOrd_of_mem st.order_map k ctx hnd hmem
        obtain ⟨⟨r, hfi, hb⟩, _⟩ := hsome k ctx hlook
        subst hrec
        refine ⟨r, hfi, ?_⟩
        rcases hb with ⟨ht, hagg⟩ | ⟨ht, hagg⟩
        · exact Or.inl ⟨ht, by simp [newRecord, hagg]⟩
        · exact Or.inr ⟨ht, by simp [newRecord, hagg]⟩

/-- The New record settled for order 1002 after scenario B. -/
def newRec1002 : OrderRecord :=
  { securityId := "600519", bizIndex := 200, tickTime := 93001000,
    ordId := 1002, ordType := "New", side := "B", price := 61,
    qty := 1000, isAggressive := some true }

/-- Witness for C1: scenario B (Trade then Add on order 1002) settles as an
aggressive New record born from the Trade event. -/
theorem claim_C1_witness :
    ∃ r, firstIntro (preprocess [rowTrade1002, rowAdd1002]) newRec1002.ordId =
        some r ∧
      ((r.type = "T" ∧ newRec1002.isAggressive = some true) ∨
       (r.type = "A" ∧ newRec1002.isAggressive = some false)) :=
  claim_C1_isAggressive_birth.2 [rowTrade1002, rowAdd1002] "600519"
    [newRec1002] [tradeRecordOf rowTrade1002 "600519"] (by decide)
    newRec1002 (by decide) (by decide)

-- ---------------------------------------------------------------------------
-- C2: settlement emits exactly one New record per live cache entry
-- ---------------------------------------------------------------------------

/-- C2: after a successful engine run, every cache entry with positive total
quantity yields exactly one settled New record, whose qty is the cached
tradeQty + restingQty — equal to the sum of qty over all filtered-session
events that resolved to the order id — whose price is restingPrice if
positive else tradePrice, whose BizIndex/TickTime are the first-seen values,
and whose side and isAggressive are copied verbatim; entries with
non-positive total quantity yield no record. -/
theorem claim_C2_settlement (rows : List Row) (sid : String) (st : EngState)
    (hrun : runEvents sid initState (preprocess rows) = .ok st) :
    ∀ id ctx, lookupOrd st.order_map id = some ctx →
      (0 < ctx.trade_qty + ctx.resting_qty →
         (settle_orders sid st.order_map).countP (fun rec => rec.ordId == id) = 1 ∧
         ∃ rec ∈ settle_orders sid st.order_map,
           rec.ordId = id ∧ rec.ordType = "New" ∧
           rec.qty = ctx.trade_qty + ctx.resting_qty ∧
           rec.qty = qtySum (preprocess rows) id ∧
           rec.price =
             (if ctx.resting_price > 0 then ctx.resting_price else ctx.trade_price) ∧
           rec.bizIndex = ctx.first_biz_index ∧ rec.tickTime = ctx.first_time ∧
           rec.side = ctx.side ∧ rec.isAggressive = some ctx.is_aggressive) ∧
      (ctx.trade_qty + ctx.resting_qty ≤ 0 →
         (settle_orders sid st.order_map).countP (fun rec => rec.ordId == id) = 0) := by
  intro id ctx hlook
  obtain ⟨hnd, hno, hsome⟩ := runEvents_cacheInv_init hrun
  have hcount := countP_settle_orders sid st.order_map id hnd
  rw [hlook] at hcount
  refine ⟨fun hpos => ⟨?_, ?_⟩, fun hnpos => ?_⟩
  · rw [hcount]
    simp [hpos]
  · refine ⟨newRecord sid id ctx,
      (mem_settle_orders sid st.order_map _).mpr
        ⟨id, ctx, mem_of_lookupOrd st.order_map id ctx hlook, hpos, rfl⟩,
      rfl, rfl, rfl, (hsome id ctx hlook).2, rfl, rfl, rfl, rfl, rfl⟩
  · rw [hcount]
    have hne : ¬ 0 < ctx.trade_qty + ctx.resting_qty := by omega
    simp [hne]

/-- The cache entry accumulated for order 1002 after scenario B. -/
def ctx1002 : OrderContext :=
  { order_no := 1002, side := "B", first_time := 93001000,
    first_biz_index := 200, trade_qty := 600, resting_qty := 400,
    trade_price := 60, resting_price := 61, is_aggressive := true,
    has_resting := true }

/-- The engine state after scenario B (Trade then Add on order 1002). -/
def st1002 : EngState :=
  { order_map := [(1002, ctx1002)], order_list := [],
    trade_list := [tradeRecordOf rowTrade1002 "600519"], last_price := 60 }

/-- Witness for C2: scenario B instantiated at order 1002. -/
theorem claim_C2_witness :
    (settle_orders "600519" st1002.order_map).countP
        (fun rec => rec.ordId == 1002) = 1 ∧
    ∃ rec ∈ settle_orders "600519" st1002.order_map,
      rec.ordId = 1002 ∧ rec.ordType = "New" ∧
      rec.qty = ctx1002.trade_qty + ctx1002.resting_qty ∧
      rec.qty = qtySum (preprocess [rowTrade1002, rowAdd1002]) 1002 ∧
      rec.price =
        (if ctx1002.resting_price > 0 then ctx1002.resting_price
         else ctx1002.trade_price) ∧
      rec.bizIndex = ctx1002.first_biz_index ∧
      rec.tickTime = ctx1002.first_time ∧
      rec.side = ctx1002.side ∧ rec.isAggressive = some ctx1002.is_aggressive :=
  (claim_C2_settlement [rowTrade1002, rowAdd1002] "600519" st1002 (by decide)
    1002 ctx1002 (by decide)).1 (by decide)

-- ---------------------------------------------------------------------------
-- C9: progress callback of the daily batch loop
-- ---------------------------------------------------------------------------

/-- C9: during a daily batch run the progress callback is invoked exactly once
per security, in order, with arguments `(securityId, i + 1, totalCount)` where
`totalCount` is the number of distinct securities of the day's feed; the
securities iterated are exactly those occurring in the feed. -/
theorem claim_C9_callback_trace (rows : List Row) :
    (callbackTrace rows).length = (securityIds rows).length ∧
    (securityIds rows).Nodup ∧
    (∀ s, s ∈ securityIds rows ↔ ∃ r ∈ rows, r.securityId = s) ∧
    (∀ s, s ∈ securityIds rows →
       (callbackTrace rows).countP (fun c => c.1 == s) = 1) ∧
    (∀ i (h1 : i < (callbackTrace rows).length)
       (h2 : i < (securityIds rows).length),
       (callbackTrace rows)[i] =
         ((securityIds rows)[i], i + 1, (securityIds rows).length)) := by
  have hnd : (securityIds rows).Nodup :=
    (List.perm_insertionSort strLE _).nodup_iff.mpr (List.nodup_dedup _)
  have hproj : (callbackTrace rows).map (fun c => c.1) = securityIds rows := by
    simp only [callbackTrace, List.map_map]
    have : ((fun c : String × Nat × Nat => c.1) ∘
        fun p : Nat × String => (p.2, p.1 + 1, (securityIds rows).length)) =
        Prod.snd := by
      funext p
      rfl
    rw [this, List.enum_map_snd]
  refine ⟨by simp [callbackTrace], hnd, ?_, ?_, ?_⟩
  · intro s
    rw [securityIds, List.mem_insertionSort, List.mem_dedup, List.mem_map]
  · intro s hs
    have hcount : (callbackTrace rows).countP (fun c => c.1 == s) =
        ((callbackTrace rows).map (fun c => c.1)).countP (fun x => x == s) := by
      rw [List.countP_map]
      rfl
    rw [hcount, hproj]
    exact List.count_eq_one_of_mem hnd hs
  · intro i h1 h2
    simp [callbackTrace, List.getElem_enum]

/-- Witness for C9 on a concrete feed: the single security "600519" is
iterated once with callback arguments (sid, 1, 1). -/
theorem claim_C9_witness :
    ("600519" ∈ securityIds [rowTrade1002, rowAuction] ↔
       ∃ r ∈ [rowTrade1002, rowAuction], r.securityId = "600519") ∧
    (callbackTrace [rowTrade1002, rowAuction]).countP
        (fun c => c.1 == "600519") = 1 :=
  ⟨(claim_C9_callback_trace [rowTrade1002, rowAuction]).2.2.1 "600519",
   (claim_C9_callback_trace [rowTrade1002, rowAuction]).2.2.2.1 "600519"
     (by decide)⟩

end SHTick
